import Mathlib

/-!
Verification of the query execution and result pipeline of the
schema.gov.it MCP server (src/index.ts).

Modelling conventions:
* JavaScript strings are modelled as `List Char` (abbreviated `Str`).
* JSON values are modelled by the inductive type `Json`; `JSON.stringify`
  is modelled by `Json.stringify` and `JSON.parse` by `Json.parse`
  (a fuel-based recursive-descent parser).  Numeric literals are modelled
  as integers; fractional and exponent forms are outside the model, which
  is adequate here because every number serialized by the pipeline is an
  integer (row counts, pagination fields).
* Fallible operations are modelled with `Except`/`Option`; a JavaScript
  value that may be `undefined`/`null` is modelled with `Option`.
* Asynchronous fan-out (`Promise.all`) is modelled by sequencing the
  already-resolved outcomes of the sub-queries; rejection of any
  sub-promise rejects the whole composite, which is what the `Except`
  bind models (first failing outcome in sequence order).
* Logging (`logUsage`) is an external side effect and is dropped.
-/

set_option autoImplicit false

namespace SchemaGov

/-- JavaScript strings are modelled as lists of characters. -/
abbrev Str := List Char

/-! ## JSON values -/

/-- Model of a JSON value (object fields keep their order, as in JS). -/
inductive Json where
  | null
  | bool (b : Bool)
  | num (n : Int)
  | str (s : Str)
  | arr (elems : List Json)
  | obj (fields : List (Str × Json))
deriving Repr

/-! ## JSON.stringify -/

/-- Lower-case hexadecimal digit for `n < 16`. -/
def hexDigit (n : Nat) : Char :=
  if n < 10 then Char.ofNat (48 + n) else Char.ofNat (87 + n)

/-- Escape of a single character inside a JSON string literal, following
`JSON.stringify`: quote, backslash and the common control characters get
two-character escapes, remaining control characters get a `\u00XX` escape,
and every other character is emitted verbatim. -/
def escChar (c : Char) : Str :=
  if c = '"' then ['\\', '"']
  else if c = '\\' then ['\\', '\\']
  else if c = '\n' then ['\\', 'n']
  else if c = '\r' then ['\\', 'r']
  else if c = '\t' then ['\\', 't']
  else if c.toNat = 8 then ['\\', 'b']
  else if c.toNat = 12 then ['\\', 'f']
  else if c.toNat < 32 then ['\\', 'u', '0', '0', hexDigit (c.toNat / 16), hexDigit (c.toNat % 16)]
  else [c]

/-- Serialization of a JSON string literal, quotes included. -/
def encodeStr (s : Str) : Str :=
  '"' :: s.flatMap escChar ++ ['"']

/-- Decimal digit character for `d < 10`. -/
def digitChar (d : Nat) : Char := Char.ofNat (48 + d)

/-- Decimal representation, fuel-based so that it reduces definitionally
(the fuel `n + 1` always suffices since `n / 10 < n`). -/
def natToStrAux : Nat → Nat → Str
  | 0, _ => []
  | fuel + 1, n =>
    if n < 10 then [digitChar n]
    else natToStrAux fuel (n / 10) ++ [digitChar (n % 10)]

/-- Decimal representation of a natural number. -/
def natToStr (n : Nat) : Str := natToStrAux (n + 1) n

/-- Decimal representation of an integer. -/
def intToStr : Int → Str
  | .ofNat n => natToStr n
  | .negSucc m => '-' :: natToStr (m + 1)

mutual

/-- Model of `JSON.stringify` (no indentation, as used by the server). -/
def Json.stringify : Json → Str
  | .null => 'n' :: 'u' :: ['l', 'l']
  | .bool true => 't' :: 'r' :: ['u', 'e']
  | .bool false => 'f' :: 'a' :: ['l', 's', 'e']
  | .num n => intToStr n
  | .str s => encodeStr s
  | .arr es => '[' :: stringifyElems es ++ [']']
  | .obj fs => '{' :: stringifyFields fs ++ ['}']

/-- Comma-separated serialization of array elements. -/
def stringifyElems : List Json → Str
  | [] => []
  | [e] => e.stringify
  | e :: es => e.stringify ++ ',' :: stringifyElems es

/-- Comma-separated serialization of object fields. -/
def stringifyFields : List (Str × Json) → Str
  | [] => []
  | [(k, v)] => encodeStr k ++ ':' :: v.stringify
  | (k, v) :: fs => encodeStr k ++ ':' :: v.stringify ++ ',' :: stringifyFields fs
end

/-! ## JSON.parse -/

/-- JSON whitespace. -/
def isWs (c : Char) : Bool :=
  c = ' ' || c = '\t' || c = '\n' || c = '\r'

/-- Drop leading JSON whitespace. -/
def skipWs : Str → Str
  | [] => []
  | c :: cs => if isWs c then skipWs cs else c :: cs

/-- Value of a hexadecimal digit. -/
def hexVal (c : Char) : Option Nat :=
  if '0' ≤ c ∧ c ≤ '9' then some (c.toNat - 48)
  else if 'a' ≤ c ∧ c ≤ 'f' then some (c.toNat - 87)
  else if 'A' ≤ c ∧ c ≤ 'F' then some (c.toNat - 55)
  else none

/-- Decimal digit test (codepoints 48-57). -/
def isDigit (c : Char) : Bool := 48 ≤ c.toNat && c.toNat ≤ 57

/-- Numeric value of a digit string (most significant first). -/
def digitsVal (ds : Str) : Nat :=
  ds.foldl (fun a c => a * 10 + (c.toNat - 48)) 0

/-- Parse the body of a JSON string literal (the opening quote has already
been consumed); returns the decoded content and the input remaining after
the closing quote. -/
def parseStrBody : Str → Option (Str × Str)
  | [] => none
  | '"' :: rest => some ([], rest)
  | '\\' :: e :: rest =>
    match e with
    | '"' => (parseStrBody rest).map (fun p => ('"' :: p.1, p.2))
    | '\\' => (parseStrBody rest).map (fun p => ('\\' :: p.1, p.2))
    | '/' => (parseStrBody rest).map (fun p => ('/' :: p.1, p.2))
    | 'n' => (parseStrBody rest).map (fun p => ('\n' :: p.1, p.2))
    | 'r' => (parseStrBody rest).map (fun p => ('\r' :: p.1, p.2))
    | 't' => (parseStrBody rest).map (fun p => ('\t' :: p.1, p.2))
    | 'b' => (parseStrBody rest).map (fun p => (Char.ofNat 8 :: p.1, p.2))
    | 'f' => (parseStrBody rest).map (fun p => (Char.ofNat 12 :: p.1, p.2))
    | 'u' =>
      match rest with
      | h1 :: h2 :: h3 :: h4 :: rest' =>
        match hexVal h1, hexVal h2, hexVal h3, hexVal h4 with
        | some a, some b, some c, some d =>
          (parseStrBody rest').map
            (fun p => (Char.ofNat (((a * 16 + b) * 16 + c) * 16 + d) :: p.1, p.2))
        | _, _, _, _ => none
      | _ => none
    | _ => none
  | c :: rest =>
    if c.toNat < 32 then none
    else (parseStrBody rest).map (fun p => (c :: p.1, p.2))

mutual

/-- Fuel-based recursive-descent parser for a JSON value; returns the value
and the unconsumed remainder of the input. -/
def parseVal : Nat → Str → Option (Json × Str)
  | 0, _ => none
  | fuel + 1, s =>
    match skipWs s with
    | 'n' :: 'u' :: 'l' :: 'l' :: rest => some (.null, rest)
    | 't' :: 'r' :: 'u' :: 'e' :: rest => some (.bool true, rest)
    | 'f' :: 'a' :: 'l' :: 's' :: 'e' :: rest => some (.bool false, rest)
    | '"' :: rest => (parseStrBody rest).map (fun p => (.str p.1, p.2))
    | '[' :: rest =>
      (match skipWs rest with
       | ']' :: r => some (.arr [], r)
       | r => (parseElems fuel r).map (fun p => (.arr p.1, p.2)))
    | '{' :: rest =>
      (match skipWs rest with
       | '}' :: r => some (.obj [], r)
       | r => (parseFields fuel r).map (fun p => (.obj p.1, p.2)))
    | '-' :: rest =>
      if rest.takeWhile isDigit = [] then none
      else some (.num (-(digitsVal (rest.takeWhile isDigit) : Int)),
        rest.dropWhile isDigit)
    | c :: rest =>
      if isDigit c then
        some (.num (digitsVal ((c :: rest).takeWhile isDigit) : Int),
          (c :: rest).dropWhile isDigit)
      else none
    | [] => none

/-- Parse one or more comma-separated array elements followed by `]`. -/
def parseElems : Nat → Str → Option (List Json × Str)
  | 0, _ => none
  | fuel + 1, s =>
    match parseVal fuel s with
    | none => none
    | some (v, r) =>
      match skipWs r with
      | ',' :: r2 => (parseElems fuel r2).map (fun p => (v :: p.1, p.2))
      | ']' :: r2 => some ([v], r2)
      | _ => none

/-- Parse one or more comma-separated object fields followed by `}`. -/
def parseFields : Nat → Str → Option (List (Str × Json) × Str)
  | 0, _ => none
  | fuel + 1, s =>
    match skipWs s with
    | '"' :: rest =>
      match parseStrBody rest with
      | none => none
      | some (k, r) =>
        match skipWs r with
        | ':' :: r2 =>
          match parseVal fuel r2 with
          | none => none
          | some (v, r3) =>
            match skipWs r3 with
            | ',' :: r4 => (parseFields fuel r4).map (fun p => ((k, v) :: p.1, p.2))
            | '}' :: r4 => some ([(k, v)], r4)
            | _ => none
        | _ => none
    | _ => none
end

/-- Model of `JSON.parse`: parse a complete JSON document, requiring that
only whitespace remains after the value.  `none` models the `SyntaxError`
thrown by the JavaScript runtime. -/
def Json.parse (s : Str) : Option Json :=
  match parseVal (s.length + 1) s with
  | some (v, rest) => if skipWs rest = [] then some v else none
  | none => none

example : Json.parse ("null".toList) = some .null := rfl
example : Json.parse (" [1, -20, \"a\"] ".toList) =
    some (.arr [.num 1, .num (-20), .str ['a']]) := rfl
example : Json.parse ('{' :: "\"a\":true".toList ++ ['}']) =
    some (.obj [(['a'], .bool true)]) := rfl
example : Json.parse ("[1,".toList) = none := rfl
example : (Json.obj [(['a'], .str ['b', '"'])]).stringify =
    '{' :: "\"a\":\"b\\\"\"".toList ++ ['}'] := rfl

/-! ## Input sanitizer (src/index.ts, `sanitizeSparqlString`) -/

/-- Global single-character replacement, the model of
`String.prototype.replace` with a one-character global regexp. -/
def replaceChar (c : Char) (rep : Str) (s : Str) : Str :=
  s.flatMap (fun x => if x = c then rep else [x])

/-- Model of `sanitizeSparqlString`: the four chained global replaces
applied in source order (backslash, double quote, newline, carriage
return). -/
def sanitizeSparqlString (s : Str) : Str :=
  replaceChar '\r' ['\\', 'r']
    (replaceChar '\n' ['\\', 'n']
      (replaceChar '"' ['\\', '"']
        (replaceChar '\\' ['\\', '\\'] s)))

/-- The per-character escape that the four chained replaces implement. -/
def sparqlEsc (c : Char) : Str :=
  if c = '\\' then ['\\', '\\']
  else if c = '"' then ['\\', '"']
  else if c = '\n' then ['\\', 'n']
  else if c = '\r' then ['\\', 'r']
  else [c]

/-- Inverse rule of the sanitizer: a backslash followed by one of the four
escape codes decodes to the escaped character; anything else is copied. -/
def unescapeSparql : Str → Str
  | [] => []
  | x :: rest =>
    if x = '\\' then
      match rest with
      | [] => ['\\']
      | c :: rest' =>
        if c = '\\' then '\\' :: unescapeSparql rest'
        else if c = '"' then '"' :: unescapeSparql rest'
        else if c = 'n' then '\n' :: unescapeSparql rest'
        else if c = 'r' then '\r' :: unescapeSparql rest'
        else '\\' :: c :: unescapeSparql rest'
    else x :: unescapeSparql rest

/-- The four chained replaces act character by character. -/
theorem sanitizeSparqlString_eq_flatMap (s : Str) :
    sanitizeSparqlString s = s.flatMap sparqlEsc := by
  have h : ∀ x : Char,
      ((if x = '\\' then ['\\', '\\'] else [x]).flatMap fun y =>
        ((if y = '"' then ['\\', '"'] else [y]).flatMap fun z =>
          ((if z = '\n' then ['\\', 'n'] else [z]).flatMap fun w =>
            if w = '\r' then ['\\', 'r'] else [w]))) = sparqlEsc x := by
    intro x
    by_cases hb : x = '\\'
    · subst hb; rfl
    by_cases hq : x = '"'
    · subst hq; rfl
    by_cases hn : x = '\n'
    · subst hn; rfl
    by_cases hr : x = '\r'
    · subst hr; rfl
    simp [sparqlEsc, hb, hq, hn, hr]
  unfold sanitizeSparqlString replaceChar
  rw [List.flatMap_assoc, List.flatMap_assoc, List.flatMap_assoc]
  simp only [h]

theorem unescapeSparql_flatMap (s : Str) :
    unescapeSparql (s.flatMap sparqlEsc) = s := by
  induction s with
  | nil => rfl
  | cons x s ih =>
    show unescapeSparql (sparqlEsc x ++ s.flatMap sparqlEsc) = x :: s
    by_cases hb : x = '\\'
    · subst hb; simpa [sparqlEsc, unescapeSparql] using ih
    · by_cases hq : x = '"'
      · subst hq; simpa [sparqlEsc, unescapeSparql] using ih
      · by_cases hn : x = '\n'
        · subst hn; simpa [sparqlEsc, unescapeSparql] using ih
        · by_cases hr : x = '\r'
          · subst hr; simpa [sparqlEsc, unescapeSparql] using ih
          · rw [show sparqlEsc x = [x] by simp [sparqlEsc, hb, hq, hn, hr]]
            rw [List.singleton_append]
            rw [show unescapeSparql (x :: s.flatMap sparqlEsc) =
                x :: unescapeSparql (s.flatMap sparqlEsc) by
              rw [unescapeSparql.eq_def]; simp [hb]]
            rw [ih]

/-! ## SPARQL result model and compressor (src/index.ts,
`compressSparqlResult`) -/

/-- One binding value `{ type, value, datatype?, "xml:lang"? }` from the
endpoint. -/
structure SparqlBindingValue where
  vtype : Str
  value : Str
  datatype : Option Str := none
  lang : Option Str := none
deriving Repr, DecidableEq

/-- One result row: a JS object mapping variable names to binding values
(sparse; keys are distinct in JS objects and kept in insertion order). -/
abbrev SparqlBinding := List (Str × SparqlBindingValue)

/-- The `head` section of a SPARQL JSON result; `vars` is `none` when the
field is absent or null at runtime. -/
structure SparqlHead where
  vars : Option (List Str)
deriving Repr, DecidableEq

/-- The `results` section; `bindings` is `none` when the field is absent
or null at runtime. -/
structure SparqlResults where
  bindings : Option (List SparqlBinding)
deriving Repr, DecidableEq

/-- A (possibly structurally incomplete) SPARQL JSON result as received
from the endpoint: either top-level section can be missing. -/
structure SparqlResponse where
  head : Option SparqlHead
  results : Option SparqlResults
deriving Repr, DecidableEq

/-- First-match association lookup, the model of JS property access. -/
def lookupAssoc {α : Type} (m : List (Str × α)) (k : Str) : Option α :=
  (m.find? (fun p => p.1 = k)).map (fun p => p.2)

/-- Compressed result shapes (`CompressedTabular | CompressedSimple | []`
in the source). -/
inductive CompressedResult where
  | empty
  | records (rs : List (List (Str × Str)))
  | tabular (headers : List Str) (rows : List (List (Option Str)))
deriving Repr, DecidableEq

/-- Model of `compressSparqlResult`: missing `results`/`bindings` or zero
rows give the empty-list sentinel; more than 5 rows give the tabular
shape with headers from `head.vars` (falling back to the keys of the
first row); otherwise each row becomes a sparse map of the bound
variables reduced to their plain string values. -/
def compressSparqlResult (r : SparqlResponse) : CompressedResult :=
  match r.results with
  | none => .empty
  | some res =>
    match res.bindings with
    | none => .empty
    | some bs =>
      if bs.length = 0 then .empty
      else if 5 < bs.length then
        let headers :=
          match r.head with
          | some hd =>
            (match hd.vars with
             | some vs => vs
             | none => (bs.headD []).map (fun p => p.1))
          | none => (bs.headD []).map (fun p => p.1)
        .tabular headers
          (bs.map (fun b => headers.map (fun h => (lookupAssoc b h).map (fun v => v.value))))
      else
        .records (bs.map (fun b => b.map (fun p => (p.1, p.2.value))))

/-- C8: `sanitizeSparqlString` is total by construction and, applying its
escapes in the fixed source order (backslash, double quote, newline,
carriage return), satisfies the round-trip law: unescaping the escaped
form by the inverse rule reproduces every input string exactly. -/
theorem sanitizeSparqlString_roundtrip (s : Str) :
    unescapeSparql (sanitizeSparqlString s) = s := by
  rw [sanitizeSparqlString_eq_flatMap]
  exact unescapeSparql_flatMap s

example :
    sanitizeSparqlString ('a' :: '"' :: 'b' :: '\\' :: ['c']) =
      'a' :: '\\' :: '"' :: 'b' :: '\\' :: '\\' :: ['c'] := rfl

/-- C6: on a result with declared variables, `compressSparqlResult`
returns the empty sentinel for zero rows; for 1-5 rows a record list of
the same length whose per-row sparse maps contain exactly the bound
variables reduced to their plain string values; for more than 5 rows a
tabular result whose headers are the declared variable order and whose
every row array has exactly as many entries as there are headers, with
`none` (JSON null) for unbound cells. -/
theorem compressSparqlResult_shapes (vs : List Str) (bs : List SparqlBinding) :
    (bs = [] → compressSparqlResult ⟨some ⟨some vs⟩, some ⟨some bs⟩⟩ = .empty) ∧
    (bs ≠ [] → bs.length ≤ 5 →
      compressSparqlResult ⟨some ⟨some vs⟩, some ⟨some bs⟩⟩ =
        .records (bs.map (fun b => b.map (fun p => (p.1, p.2.value))))) ∧
    (5 < bs.length →
      compressSparqlResult ⟨some ⟨some vs⟩, some ⟨some bs⟩⟩ =
        .tabular vs
          (bs.map (fun b => vs.map (fun h => (lookupAssoc b h).map (fun v => v.value)))) ∧
      ∀ row ∈ bs.map (fun b => vs.map (fun h => (lookupAssoc b h).map (fun v => v.value))),
        row.length = vs.length) := by
  refine ⟨fun hnil => by subst hnil; rfl, fun hne hle => ?_, fun hgt => ?_⟩
  · have h0 : ¬ bs.length = 0 := by simpa using hne
    have h5 : ¬ 5 < bs.length := Nat.not_lt.mpr hle
    simp [compressSparqlResult, h0, h5]
  · have h0 : ¬ bs.length = 0 := by omega
    refine ⟨by simp [compressSparqlResult, h0, hgt], ?_⟩
    intro row hrow
    rcases List.mem_map.mp hrow with ⟨b, _, hb⟩
    subst hb
    exact List.length_map vs _

/-- Closed instance of `compressSparqlResult_shapes`: a 6-row result with
one declared variable compresses to the tabular shape. -/
theorem compressSparqlResult_shapes_witness :
    compressSparqlResult
      ⟨some ⟨some [['a']]⟩,
       some ⟨some (List.replicate 6 [(['a'], ⟨['u'], ['v'], none, none⟩)])⟩⟩ =
      .tabular [['a']] (List.replicate 6 [some ['v']]) :=
  (((compressSparqlResult_shapes [['a']]
      (List.replicate 6 [(['a'], ⟨['u'], ['v'], none, none⟩)])).2.2
      (by decide)).1).trans (by decide)

/-- C10: `compressSparqlResult` is total at the malformed-input edge: when
the `results` section or its `bindings` field is absent (or null), it
returns the empty-list sentinel instead of failing, so a structurally
wrong but JSON-parseable endpoint response compresses to an empty
result. -/
theorem compressSparqlResult_malformed_empty (r : SparqlResponse)
    (h : r.results = none ∨ ∃ res, r.results = some res ∧ res.bindings = none) :
    compressSparqlResult r = .empty := by
  rcases h with h | ⟨res, hres, hb⟩
  · simp [compressSparqlResult, h]
  · simp [compressSparqlResult, hres, hb]

/-- Closed instance of `compressSparqlResult_malformed_empty` at a
response with no `results` section at all. -/
theorem compressSparqlResult_malformed_empty_witness :
    compressSparqlResult ⟨none, none⟩ = .empty :=
  compressSparqlResult_malformed_empty ⟨none, none⟩ (Or.inl rfl)

/-! ## Query executor (src/index.ts, `executeSparql`) -/

/-- A resolved HTTP response as seen by `executeSparql` after `fetch`. -/
structure HttpResponse where
  ok : Bool
  status : Nat
  statusText : Str
  body : Str
deriving Repr

/-- Message of the `SyntaxError` thrown by `response.json()` on a body
that is not valid JSON; the exact wording is runtime specific, the model
fixes a representative one. -/
def jsonSyntaxErrorMessage : Str := "Unexpected end of JSON input".toList

/-- Model of `executeSparql` from the point where the network response is
available: a non-ok transport status throws (is mapped to `.error`); an
ok response has its body parsed by `response.json()` — a body that is not
valid JSON throws, and any parsed JSON value is returned as the result
without any shape validation (the `as Promise<SparqlResult>` cast in the
source is unchecked). -/
def executeSparql (resp : HttpResponse) : Except Str Json :=
  if resp.ok = false then
    .error ("SPARQL request failed: ".toList ++ natToStr resp.status ++ ' ' :: resp.statusText)
  else
    match Json.parse resp.body with
    | some j => .ok j
    | none => .error jsonSyntaxErrorMessage

/-- String test for a JSON value. -/
def isStringJson : Json → Bool
  | .str _ => true
  | _ => false

/-- Shape of one binding value, per the `SparqlBindingValue` interface of
the source: an object whose `type` and `value` fields are strings. -/
def isBindingValueJson : Json → Bool
  | .obj fs =>
    (match lookupAssoc fs ("type".toList) with
     | some v => isStringJson v
     | none => false) &&
    (match lookupAssoc fs ("value".toList) with
     | some v => isStringJson v
     | none => false)
  | _ => false

/-- Shape of one result row: an object all of whose values are binding
values. -/
def isBindingJson : Json → Bool
  | .obj fs => fs.all (fun p => isBindingValueJson p.2)
  | _ => false

/-- Shape of the expected tabular result (`SparqlResult` interface of the
source): `head.vars` a string array and `results.bindings` an array of
rows. -/
def isSparqlResultShape : Json → Bool
  | .obj fs =>
    (match lookupAssoc fs ("head".toList) with
     | some (.obj hf) =>
       (match lookupAssoc hf ("vars".toList) with
        | some (.arr vs) => vs.all isStringJson
        | _ => false)
     | _ => false) &&
    (match lookupAssoc fs ("results".toList) with
     | some (.obj rf) =>
       (match lookupAssoc rf ("bindings".toList) with
        | some (.arr bs) => bs.all isBindingJson
        | _ => false)
     | _ => false)
  | _ => false

/-- C3 counterexample: an ok response whose body is valid JSON but not in
the expected `{ head: { vars }, results: { bindings } }` tabular shape is
returned by the executor as a *successful* result — it is not rejected
with any parse error, refuting the claim that no such body is ever
returned as a successful result set. -/
theorem executeSparql_nonTabular_success :
    executeSparql ⟨true, 200, "OK".toList, '{' :: "\"foo\":1".toList ++ ['}']⟩ =
      .ok (.obj [("foo".toList, .num 1)]) ∧
    isSparqlResultShape (.obj [("foo".toList, .num 1)]) = false :=
  ⟨rfl, rfl⟩

/-- C3 amended: on an ok response, only a body that is not valid JSON at
all fails (with the runtime JSON syntax error); every JSON-parseable
body, whatever its shape, is returned as a successful result. -/
theorem executeSparql_parse_errors (resp : HttpResponse) (hok : resp.ok = true) :
    (Json.parse resp.body = none → executeSparql resp = .error jsonSyntaxErrorMessage) ∧
    (∀ j, Json.parse resp.body = some j → executeSparql resp = .ok j) := by
  unfold executeSparql
  rw [hok]
  exact ⟨fun h => by simp [h], fun j h => by simp [h]⟩

/-- Closed instance of `executeSparql_parse_errors`: an ok response with
body `[]` parses and is returned as a success. -/
theorem executeSparql_parse_errors_witness :
    Json.parse ("[]".toList) = some (.arr []) ∧
    executeSparql ⟨true, 200, "OK".toList, "[]".toList⟩ = .ok (.arr []) :=
  ⟨rfl, (executeSparql_parse_errors ⟨true, 200, "OK".toList, "[]".toList⟩ rfl).2 _ rfl⟩

/-! ## Output truncation and the tool execution wrapper (src/index.ts,
`CHARACTER_LIMIT`, `truncateResult`, `executeTool`) -/

/-- Maximum character limit for tool responses. -/
def CHARACTER_LIMIT : Nat := 50000

/-- Model of `truncateResult`: pass through when within the limit,
otherwise cut at the limit. -/
def truncateResult (text : Str) : Str × Bool :=
  if text.length ≤ CHARACTER_LIMIT then (text, false)
  else (text.take CHARACTER_LIMIT, true)

/-- Model of `String.prototype.lastIndexOf` for a single character:
the greatest index holding the character, or `-1`. -/
def jsLastIndexOf (c : Char) : Str → Int
  | [] => -1
  | x :: xs =>
    let r := jsLastIndexOf c xs
    if 0 ≤ r then r + 1 else if x = c then 0 else -1

/-- Model of `String.prototype.slice(0, e)` for the nonnegative end
indices produced by `lastIndexOf(…) + 1`. -/
def jsSliceTo (s : Str) (e : Int) : Str := s.take e.toNat

/-- A `ToolResult`: the handler resolves with success or failure. -/
inductive ToolRes where
  | success (data : Json) (rowCount : Option Int)
  | failure (error : Str) (suggestion : Option Str)

/-- The rendered MCP response: the emitted text and the error flag. -/
structure McpToolResponse where
  text : Str
  isError : Bool
deriving Repr, DecidableEq

/-- Rendering of a failure or thrown error (`Error: ${message}`). -/
def errorText (msg : Str) : Str := "Error: ".toList ++ msg

/-- The interpolated truncation message of `executeTool`. -/
def truncMessage : Str :=
  "Result exceeded ".toList ++ natToStr CHARACTER_LIMIT ++
    " characters and was truncated".toList

/-- The `{ _truncated, _message, data }` wrapper object built by
`executeTool` for oversized results. -/
def truncationWrapper (d : Json) : Json :=
  .obj [("_truncated".toList, .bool true),
        ("_message".toList, .str truncMessage),
        ("data".toList, d)]

/-- Model of `executeTool` from the point where the handler outcome is
known.  `Except.error` models an exception thrown by the handler (caught
by the `catch` block).  On a successful oversized result the serialized
text is cut at the limit, the cut is narrowed to the last closing brace
(`slice(0, lastIndexOf(rbrace) + 1)`, with the literal `"null"` standing
in for an empty cut), re-parsed, and re-wrapped; a re-parse failure is an
exception caught by the same `catch` block. -/
def executeTool (handler : Except Str ToolRes) : McpToolResponse :=
  match handler with
  | .error msg => ⟨errorText msg, true⟩
  | .ok (.failure err sugg) =>
    ⟨errorText (err ++ (match sugg with
      | some sg => '\n' :: "Suggestion: ".toList ++ sg
      | none => [])), true⟩
  | .ok (.success data _) =>
    let tr := truncateResult (Json.stringify data)
    if tr.2 then
      let cut := jsSliceTo tr.1 (jsLastIndexOf '}' tr.1 + 1)
      let parseInput := if cut = [] then "null".toList else cut
      match Json.parse parseInput with
      | some d => ⟨Json.stringify (truncationWrapper d), false⟩
      | none => ⟨errorText jsonSyntaxErrorMessage, true⟩
    else ⟨tr.1, false⟩

/-! ### Size accounting: a parsed value re-serializes into at most the
number of characters the parser consumed. -/

theorem skipWs_length (s : Str) : (skipWs s).length ≤ s.length := by
  induction s with
  | nil => simp [skipWs]
  | cons c cs ih =>
    rw [skipWs]
    by_cases h : isWs c = true
    · simp only [h, if_true]
      exact le_trans ih (Nat.le_succ _)
    · simp [h]

theorem escChar_length_le (c : Char) : (escChar c).length ≤ 6 := by
  unfold escChar
  split_ifs <;> simp

theorem escChar_plain (c : Char) (h1 : ¬ c = '"') (h2 : ¬ c = '\\')
    (h3 : 32 ≤ c.toNat) : escChar c = [c] := by
  have hn : ¬ c = '\n' := fun h => by subst h; exact absurd h3 (by decide)
  have hr : ¬ c = '\r' := fun h => by subst h; exact absurd h3 (by decide)
  have ht : ¬ c = '\t' := fun h => by subst h; exact absurd h3 (by decide)
  have hb : ¬ c.toNat = 8 := by omega
  have hf : ¬ c.toNat = 12 := by omega
  have hc : ¬ c.toNat < 32 := by omega
  simp [escChar, h1, h2, hn, hr, ht, hb, hf, hc]

theorem escStep (d : Char) (rest p1 p2 : Str) (hd : (escChar d).length ≤ 2)
    (hb : (p1.flatMap escChar).length + 1 + p2.length ≤ rest.length) :
    ((d :: p1).flatMap escChar).length + 1 + p2.length ≤ rest.length + 1 + 1 := by
  simp only [List.flatMap_cons, List.length_append]
  omega

theorem parseStrBody_length (s : Str) :
    ∀ content r, parseStrBody s = some (content, r) →
      (content.flatMap escChar).length + 1 + r.length ≤ s.length := by
  induction s using parseStrBody.induct with
  | case1 =>
    intro content r h
    simp [parseStrBody] at h
  | case2 rest =>
    intro content r h
    rw [parseStrBody] at h
    cases h
    simp
    omega
  | case3 rest ih | case4 rest ih | case5 rest ih | case6 rest ih
  | case7 rest ih | case8 rest ih | case9 rest ih | case10 rest ih =>
    intro content r h
    rw [parseStrBody] at h
    cases hp : parseStrBody rest with
    | none => rw [hp] at h; cases h
    | some p =>
      rw [hp] at h
      cases h
      simp only [List.length_cons]
      exact escStep _ rest p.1 p.2 (by decide) (ih p.1 p.2 hp)
  | case11 h1 h2 h3 h4 rest' a b c d ha hb hc hd ih =>
    intro content r h
    rw [parseStrBody] at h
    rw [ha, hb, hc, hd] at h
    cases hp : parseStrBody rest' with
    | none => rw [hp] at h; cases h
    | some p =>
      rw [hp] at h
      cases h
      have hrec := ih p.1 p.2 hp
      have hesc := escChar_length_le (Char.ofNat (((a * 16 + b) * 16 + c) * 16 + d))
      simp only [List.flatMap_cons, List.length_append, List.length_cons]
      omega
  | case12 h1 h2 h3 h4 rest' hno =>
    intro content r h
    rw [parseStrBody] at h
    rcases ha : hexVal h1 with _ | a <;> rcases hb : hexVal h2 with _ | b <;>
      rcases hc : hexVal h3 with _ | c <;> rcases hd : hexVal h4 with _ | d <;>
      rw [ha, hb, hc, hd] at h <;> first
        | cases h
        | exact (hno a b c d ha hb hc hd).elim
  | case13 rest hno =>
    intro content r h
    rw [parseStrBody] at h
    · cases h
    · exact hno
  | case14 e rest hq hbs hsl hn hr ht hb hf hu =>
    intro content r h
    rw [parseStrBody] at h
    · cases h
    all_goals assumption
  | case15 c rest hq hbs hlt =>
    intro content r h
    rw [parseStrBody] at h
    · rw [if_pos hlt] at h
      cases h
    all_goals assumption
  | case16 c rest hq hbs hge ih =>
    intro content r h
    rw [parseStrBody] at h
    · rw [if_neg hge] at h
      cases hp : parseStrBody rest with
      | none => rw [hp] at h; cases h
      | some p =>
        rw [hp] at h
        cases h
        have hrec := ih p.1 p.2 hp
        have hnb : ¬ c = '\\' := by
          intro hc
          cases rest with
          | nil => rw [show parseStrBody [] = none from rfl] at hp; cases hp
          | cons e t => exact hbs e t hc rfl
        have hpl := escChar_plain c (fun hc => hq hc) hnb (by omega)
        simp only [List.flatMap_cons, hpl, List.length_append, List.length_cons,
          List.singleton_append]
        omega
    all_goals assumption

theorem digitsVal_foldl_lt (ds : Str) :
    ∀ a : Nat, (∀ c ∈ ds, isDigit c = true) →
      ds.foldl (fun x c => x * 10 + (c.toNat - 48)) a < (a + 1) * 10 ^ ds.length := by
  induction ds with
  | nil => intro a _; simp
  | cons c ds ih =>
    intro a h
    have hc : isDigit c = true := h c (List.mem_cons_self c ds)
    have hd : c.toNat - 48 ≤ 9 := by
      simp only [isDigit, Bool.and_eq_true, decide_eq_true_eq] at hc
      omega
    have h1 := ih (a * 10 + (c.toNat - 48)) (fun x hx => h x (List.mem_cons_of_mem c hx))
    have h2 : (a * 10 + (c.toNat - 48) + 1) * 10 ^ ds.length ≤ (a + 1) * 10 ^ (ds.length + 1) := by
      rw [pow_succ]
      have hm : a * 10 + (c.toNat - 48) + 1 ≤ (a + 1) * 10 := by omega
      calc (a * 10 + (c.toNat - 48) + 1) * 10 ^ ds.length
          ≤ (a + 1) * 10 * 10 ^ ds.length := Nat.mul_le_mul_right _ hm
        _ = (a + 1) * (10 ^ ds.length * 10) := by ring
    simp only [List.foldl_cons, List.length_cons]
    exact lt_of_lt_of_le h1 h2

theorem digitsVal_lt (ds : Str) (h : ∀ c ∈ ds, isDigit c = true) :
    digitsVal ds < 10 ^ ds.length := by
  simpa [digitsVal] using digitsVal_foldl_lt ds 0 h

theorem natToStrAux_length_le :
    ∀ fuel k n : Nat, n < fuel → n < 10 ^ k → 1 ≤ k → (natToStrAux fuel n).length ≤ k := by
  intro fuel
  induction fuel with
  | zero => intro k n hf _ _; omega
  | succ fuel ih =>
    intro k n hf h hk1
    by_cases h10 : n < 10
    · rw [natToStrAux]
      simp [h10, hk1]
    · rw [natToStrAux]
      simp only [h10, if_false, List.length_append, List.length_cons, List.length_nil]
      have hk : 1 ≤ k - 1 := by
        rcases Nat.lt_or_ge k 2 with hlt | hge
        · exfalso
          have hk1' : k = 1 := by omega
          subst hk1'
          simp at h
          omega
        · omega
      have hdiv : n / 10 < 10 ^ (k - 1) := by
        rw [Nat.div_lt_iff_lt_mul (by norm_num)]
        calc n < 10 ^ k := h
          _ = 10 ^ (k - 1) * 10 := by
            rw [← pow_succ]
            congr 1
            omega
      have hfd : n / 10 < fuel := by
        have : n / 10 < n := Nat.div_lt_self (by omega) (by norm_num)
        omega
      have := ih (k - 1) (n / 10) hfd hdiv hk
      omega

theorem natToStr_length_le (k n : Nat) (h : n < 10 ^ k) (hk : 1 ≤ k) :
    (natToStr n).length ≤ k :=
  natToStrAux_length_le (n + 1) k n (Nat.lt_succ_self n) h hk

theorem intToStr_ofNat (n : Nat) : intToStr (n : Int) = natToStr n := rfl

theorem intToStr_neg_length (n : Nat) :
    (intToStr (-(n : Int))).length ≤ 1 + (natToStr n).length := by
  cases n with
  | zero => simp [intToStr, natToStr, natToStrAux]
  | succ m =>
    have : (-((m + 1 : Nat) : Int)) = Int.negSucc m := rfl
    rw [this]
    simp [intToStr]
    omega

theorem stringifyElems_cons_le (v : Json) (vs : List Json) :
    (stringifyElems (v :: vs)).length ≤
      (Json.stringify v).length + 1 + (stringifyElems vs).length := by
  cases vs with
  | nil => simp [stringifyElems]
  | cons w ws =>
    rw [show stringifyElems (v :: w :: ws) =
        Json.stringify v ++ ',' :: stringifyElems (w :: ws) from rfl]
    simp
    omega

theorem stringifyFields_cons_le (k : Str) (v : Json) (fs : List (Str × Json)) :
    (stringifyFields ((k, v) :: fs)).length ≤
      (encodeStr k).length + 1 + (Json.stringify v).length + 1 + (stringifyFields fs).length := by
  cases fs with
  | nil => simp [stringifyFields]; omega
  | cons f fs' =>
    rw [show stringifyFields ((k, v) :: f :: fs') =
        encodeStr k ++ ':' :: Json.stringify v ++ ',' :: stringifyFields (f :: fs') from rfl]
    simp
    omega

theorem takeWhile_digits_lt (l : Str) :
    digitsVal (l.takeWhile isDigit) < 10 ^ (l.takeWhile isDigit).length :=
  digitsVal_lt _ (fun c hc => List.mem_takeWhile_imp hc)

/-- Size accounting for the three mutually recursive parsing functions:
whatever is parsed re-serializes into at most the number of characters
consumed. -/
theorem parse_length_rec (fuel : Nat) :
    (∀ s v r, parseVal fuel s = some (v, r) →
      (Json.stringify v).length + r.length ≤ s.length) ∧
    (∀ s vs r, parseElems fuel s = some (vs, r) →
      (stringifyElems vs).length + 1 + r.length ≤ s.length) ∧
    (∀ s fs r, parseFields fuel s = some (fs, r) →
      (stringifyFields fs).length + 1 + r.length ≤ s.length) := by
  induction fuel with
  | zero =>
    refine ⟨fun s v r h => ?_, fun s vs r h => ?_, fun s fs r h => ?_⟩
    · simp [parseVal] at h
    · simp [parseElems] at h
    · simp [parseFields] at h
  | succ fuel ih =>
    obtain ⟨ihv, ihe, ihf⟩ := ih
    refine ⟨fun s v r h => ?_, fun s vs r h => ?_, fun s fs r h => ?_⟩
    · -- parseVal
      have hsw := skipWs_length s
      rw [parseVal] at h
      split at h
      · -- null
        rename_i rest heq
        cases h
        have hlen := congrArg List.length heq
        simp at hlen
        simp [Json.stringify]
        omega
      · -- true
        rename_i rest heq
        cases h
        have hlen := congrArg List.length heq
        simp at hlen
        simp [Json.stringify]
        omega
      · -- false
        rename_i rest heq
        cases h
        have hlen := congrArg List.length heq
        simp at hlen
        simp [Json.stringify]
        omega
      · -- string
        rename_i rest heq
        cases hp : parseStrBody rest with
        | none => rw [hp] at h; cases h
        | some p =>
          rw [hp] at h
          cases h
          have hb := parseStrBody_length rest p.1 p.2 hp
          simp at hb
          have hlen := congrArg List.length heq
          simp at hlen
          simp [Json.stringify, encodeStr]
          omega
      · -- array
        rename_i rest heq
        have hsw2 := skipWs_length rest
        have hlen := congrArg List.length heq
        simp at hlen
        split at h
        · -- empty array
          rename_i r2 heq2
          cases h
          have hlen2 := congrArg List.length heq2
          simp at hlen2
          simp [Json.stringify, stringifyElems]
          omega
        · -- nonempty array
          cases he : parseElems fuel (skipWs rest) with
          | none => rw [he] at h; cases h
          | some q =>
            rw [he] at h
            cases h
            have hb := ihe _ _ _ he
            simp [Json.stringify]
            omega
      · -- object
        rename_i rest heq
        have hsw2 := skipWs_length rest
        have hlen := congrArg List.length heq
        simp at hlen
        split at h
        · -- empty object
          rename_i r2 heq2
          cases h
          have hlen2 := congrArg List.length heq2
          simp at hlen2
          simp [Json.stringify, stringifyFields]
          omega
        · -- nonempty object
          cases hf : parseFields fuel (skipWs rest) with
          | none => rw [hf] at h; cases h
          | some q =>
            rw [hf] at h
            cases h
            have hb := ihf _ _ _ hf
            simp [Json.stringify]
            omega
      · -- negative number
        rename_i rest heq
        have hlen := congrArg List.length heq
        simp at hlen
        split at h
        · cases h
        · rename_i hne
          cases h
          have hsplit : (rest.takeWhile isDigit).length + (rest.dropWhile isDigit).length
              = rest.length := by
            rw [← List.length_append, List.takeWhile_append_dropWhile]
          have hlt := takeWhile_digits_lt rest
          have h1 : 1 ≤ (rest.takeWhile isDigit).length := by
            cases hq : rest.takeWhile isDigit with
            | nil => exact absurd hq hne
            | cons a t => simp [hq]
          have hnat := natToStr_length_le _ _ hlt h1
          have hneg := intToStr_neg_length (digitsVal (rest.takeWhile isDigit))
          simp [Json.stringify]
          omega
      · -- nonnegative number (the catch-all branch of the match)
        rename_i heq
        rename Char => c
        rename List Char => rest
        have hlen := congrArg List.length heq
        simp at hlen
        split at h
        · rename_i hdig
          cases h
          have hsplit : ((c :: rest).takeWhile isDigit).length +
              ((c :: rest).dropWhile isDigit).length = (c :: rest).length := by
            rw [← List.length_append, List.takeWhile_append_dropWhile]
          have hlt := takeWhile_digits_lt (c :: rest)
          have h1 : 1 ≤ ((c :: rest).takeWhile isDigit).length := by
            rw [List.takeWhile_cons_of_pos hdig]
            simp
          have hnat := natToStr_length_le _ _ hlt h1
          simp only [Json.stringify, intToStr_ofNat, List.length_cons] at *
          omega
        · cases h
      · -- empty input
        cases h
    · -- parseElems
      rw [parseElems] at h
      cases hv : parseVal fuel s with
      | none => rw [hv] at h; cases h
      | some q =>
        obtain ⟨v1, r1⟩ := q
        rw [hv] at h
        have hbv := ihv _ _ _ hv
        have hsw := skipWs_length r1
        have h2 : (match skipWs r1 with
            | ',' :: r2 => (parseElems fuel r2).map (fun p => (v1 :: p.1, p.2))
            | ']' :: r2 => some ([v1], r2)
            | _ => none) = some (vs, r) := h
        clear h
        split at h2
        · -- comma: more elements
          rename_i r2 heq
          have hlen := congrArg List.length heq
          simp at hlen
          cases he : parseElems fuel r2 with
          | none => rw [he] at h2; cases h2
          | some q2 =>
            rw [he] at h2
            cases h2
            have hbe := ihe _ _ _ he
            have hc := stringifyElems_cons_le v1 q2.1
            omega
        · -- closing bracket
          rename_i r2 heq
          cases h2
          have hlen := congrArg List.length heq
          simp at hlen
          simp [stringifyElems]
          omega
        · cases h2
    · -- parseFields
      rw [parseFields] at h
      have hsw := skipWs_length s
      split at h
      · rename_i rest heq
        have hlen := congrArg List.length heq
        simp at hlen
        cases hk : parseStrBody rest with
        | none => rw [hk] at h; cases h
        | some pk =>
          obtain ⟨k, r1⟩ := pk
          rw [hk] at h
          have hbk := parseStrBody_length rest k r1 hk
          simp at hbk
          have hsw1 := skipWs_length r1
          have h2 : (match skipWs r1 with
              | ':' :: r2 =>
                (match parseVal fuel r2 with
                 | none => none
                 | some (v, r3) =>
                   match skipWs r3 with
                   | ',' :: r4 => (parseFields fuel r4).map (fun p => ((k, v) :: p.1, p.2))
                   | '}' :: r4 => some ([(k, v)], r4)
                   | _ => none)
              | _ => none) = some (fs, r) := h
          clear h
          split at h2
          · rename_i r2 heq1
            have hlen1 := congrArg List.length heq1
            simp at hlen1
            cases hv : parseVal fuel r2 with
            | none => rw [hv] at h2; cases h2
            | some pv =>
              obtain ⟨v, r3⟩ := pv
              rw [hv] at h2
              have hbv := ihv _ _ _ hv
              have hsw3 := skipWs_length r3
              have h3 : (match skipWs r3 with
                  | ',' :: r4 => (parseFields fuel r4).map (fun p => ((k, v) :: p.1, p.2))
                  | '}' :: r4 => some ([(k, v)], r4)
                  | _ => none) = some (fs, r) := h2
              clear h2
              split at h3
              · -- comma: more fields
                rename_i r4 heq2
                have hlen2 := congrArg List.length heq2
                simp at hlen2
                cases hff : parseFields fuel r4 with
                | none => rw [hff] at h3; cases h3
                | some q2 =>
                  rw [hff] at h3
                  cases h3
                  have hbf := ihf _ _ _ hff
                  have hc := stringifyFields_cons_le k v q2.1
                  have hek : (encodeStr k).length =
                      (List.map (List.length ∘ escChar) k).sum + 2 := by
                    simp [encodeStr]
                  omega
              · -- closing brace
                rename_i r4 heq2
                cases h3
                have hlen2 := congrArg List.length heq2
                simp at hlen2
                have hek : (encodeStr k).length =
                    (List.map (List.length ∘ escChar) k).sum + 2 := by
                  simp [encodeStr]
                simp [stringifyFields]
                omega
              · cases h3
          · cases h2
      · cases h

/-- Top-level size accounting: a successfully parsed document
re-serializes into at most the length of the parsed text. -/
theorem Json.parse_length (s : Str) (v : Json) (h : Json.parse s = some v) :
    (Json.stringify v).length ≤ s.length := by
  unfold Json.parse at h
  cases hp : parseVal (s.length + 1) s with
  | none => rw [hp] at h; cases h
  | some q =>
    obtain ⟨v', rest⟩ := q
    rw [hp] at h
    have h2 : (if skipWs rest = [] then some v' else none) = some v := h
    clear h
    split at h2
    · cases h2
      have := (parse_length_rec (s.length + 1)).1 _ _ _ hp
      omega
    · cases h2

/-- Exact size of the truncation wrapper: a fixed overhead of 91
characters around the re-serialized `data` field. -/
theorem truncationWrapper_length (d : Json) :
    (Json.stringify (truncationWrapper d)).length = 91 + (Json.stringify d).length := by
  have h : Json.stringify (truncationWrapper d) =
      ('{' :: (encodeStr ("_truncated".toList) ++ ':' :: Json.stringify (.bool true) ++
        ',' :: (encodeStr ("_message".toList) ++ ':' :: Json.stringify (.str truncMessage) ++
        ',' :: (encodeStr ("data".toList) ++ ':' :: Json.stringify d)))) ++ ['}'] := rfl
  have l1 : (encodeStr ("_truncated".toList)).length = 12 := rfl
  have l2 : (encodeStr ("_message".toList)).length = 10 := rfl
  have l3 : (Json.stringify (Json.str truncMessage)).length = 52 := rfl
  have l4 : (encodeStr ("data".toList)).length = 6 := rfl
  have l5 : (Json.stringify (Json.bool true)).length = 4 := rfl
  rw [h]
  simp only [List.length_append, List.length_cons, l1, l2, l3, l4, l5,
    List.length_nil]
  omega

/-- The brace-narrowed re-parse input of `executeTool` never exceeds the
character limit. -/
theorem parseInput_length_le (t : Str) (ht : t.length ≤ CHARACTER_LIMIT) :
    (if jsSliceTo t (jsLastIndexOf '}' t + 1) = [] then "null".toList
      else jsSliceTo t (jsLastIndexOf '}' t + 1)).length ≤ CHARACTER_LIMIT := by
  split
  · decide
  · calc (jsSliceTo t (jsLastIndexOf '}' t + 1)).length
        ≤ t.length := by simp [jsSliceTo]
      _ ≤ CHARACTER_LIMIT := ht

/-- C5 counterexample: a failure outcome whose error message has 50,001
characters is emitted verbatim — error texts bypass `truncateResult`
entirely — so the serialized output exceeds the 50,000-character
budget. -/
theorem toolOutput_budget_violation :
    CHARACTER_LIMIT <
      (executeTool (.ok (.failure (List.replicate 50001 'x') none))).text.length := by
  show CHARACTER_LIMIT <
    (errorText (List.replicate 50001 'x' ++ ([] : Str))).length
  rw [List.append_nil]
  unfold errorText
  rw [List.length_append, List.length_replicate]
  have h7 : ("Error: ".toList).length = 7 := rfl
  rw [h7]
  decide

/-- C5 amended: the 50,000-character budget is enforced only on the
success path: a successful result that fits is passed through verbatim
(hence within budget), and any successful result is emitted with at most
50,000 + 91 characters (the truncation wrapper around a re-parsed prefix
of at most 50,000 characters, the constant re-parse failure text, or the
payload itself); failure and thrown-error texts bypass the truncation
entirely and may be arbitrarily long. -/
theorem toolOutput_budget_success (data : Json) (rc : Option Int) :
    ((Json.stringify data).length ≤ CHARACTER_LIMIT →
      executeTool (.ok (.success data rc)) = ⟨Json.stringify data, false⟩) ∧
    (executeTool (.ok (.success data rc))).text.length ≤ CHARACTER_LIMIT + 91 := by
  by_cases hfit : (Json.stringify data).length ≤ CHARACTER_LIMIT
  · have htr : truncateResult (Json.stringify data) = (Json.stringify data, false) := by
      simp [truncateResult, hfit]
    have hout : executeTool (.ok (.success data rc)) = ⟨Json.stringify data, false⟩ := by
      simp only [executeTool, htr]
      simp
    refine ⟨fun _ => hout, ?_⟩
    rw [hout]
    calc (Json.stringify data).length ≤ CHARACTER_LIMIT := hfit
      _ ≤ CHARACTER_LIMIT + 91 := by omega
  · have htr : truncateResult (Json.stringify data) =
        ((Json.stringify data).take CHARACTER_LIMIT, true) := by
      simp [truncateResult, hfit]
    refine ⟨fun hle => absurd hle hfit, ?_⟩
    have hcutlen : ((Json.stringify data).take CHARACTER_LIMIT).length ≤ CHARACTER_LIMIT := by
      simp
    have hinp := parseInput_length_le ((Json.stringify data).take CHARACTER_LIMIT) hcutlen
    set inp := (if jsSliceTo ((Json.stringify data).take CHARACTER_LIMIT)
        (jsLastIndexOf '}' ((Json.stringify data).take CHARACTER_LIMIT) + 1) = []
      then "null".toList
      else jsSliceTo ((Json.stringify data).take CHARACTER_LIMIT)
        (jsLastIndexOf '}' ((Json.stringify data).take CHARACTER_LIMIT) + 1)) with hinpdef
    have hout : executeTool (.ok (.success data rc)) =
        (match Json.parse inp with
         | some d => ⟨Json.stringify (truncationWrapper d), false⟩
         | none => ⟨errorText jsonSyntaxErrorMessage, true⟩) := by
      rw [hinpdef]
      simp only [executeTool, htr]
      simp
    rw [hout]
    cases hp : Json.parse inp with
    | none =>
      simp only
      decide
    | some d =>
      simp only
      have hd := Json.parse_length inp d hp
      rw [truncationWrapper_length]
      omega

/-- Closed instance of `toolOutput_budget_success`: a small successful
result is passed through unchanged. -/
theorem toolOutput_budget_success_witness :
    (Json.stringify Json.null).length ≤ CHARACTER_LIMIT ∧
    executeTool (.ok (.success Json.null none)) = ⟨Json.stringify Json.null, false⟩ :=
  ⟨by decide, (toolOutput_budget_success Json.null none).1 (by decide)⟩

/-! ### The truncation re-parse bug -/

/-- Unfolding of the success path of `executeTool`, stated generically so
that instantiating it at a large concrete payload forces no
evaluation. -/
theorem executeTool_success_eq (data : Json) (rc : Option Int) :
    executeTool (.ok (.success data rc)) =
      (if (truncateResult (Json.stringify data)).2 = true then
        match Json.parse (if jsSliceTo (truncateResult (Json.stringify data)).1
            (jsLastIndexOf '}' (truncateResult (Json.stringify data)).1 + 1) = [] then
            "null".toList
          else jsSliceTo (truncateResult (Json.stringify data)).1
            (jsLastIndexOf '}' (truncateResult (Json.stringify data)).1 + 1)) with
        | some d => ⟨Json.stringify (truncationWrapper d), false⟩
        | none => ⟨errorText jsonSyntaxErrorMessage, true⟩
      else ⟨(truncateResult (Json.stringify data)).1, false⟩) := rfl

theorem flatMap_escChar_replicate (n : Nat) :
    (List.replicate n 'x').flatMap escChar = List.replicate n 'x' := by
  induction n with
  | zero => rfl
  | succ n ih =>
    rw [List.replicate_succ, List.flatMap_cons, ih]
    rfl

theorem jsLastIndexOf_neg_of_not_mem (c : Char) (s : Str) (h : c ∉ s) :
    jsLastIndexOf c s = -1 := by
  induction s with
  | nil => rfl
  | cons x xs ih =>
    have hx : ¬ x = c := fun he => h (by simp [he])
    have ht := ih (fun hm => h (List.mem_cons_of_mem x hm))
    rw [jsLastIndexOf]
    simp [ht, hx]

theorem jsLastIndexOf_append_of_not_mem (c : Char) (xs ys : Str) (h : c ∉ ys) :
    jsLastIndexOf c (xs ++ ys) = jsLastIndexOf c xs := by
  induction xs with
  | nil => simpa using jsLastIndexOf_neg_of_not_mem c ys h
  | cons x t ih =>
    rw [List.cons_append, jsLastIndexOf, jsLastIndexOf, ih]

/-- The serialized first 50,000 characters of the bug input: the complete
first record, a comma, and the opening quote of a huge string. -/
def c1Pre : Str :=
  '[' :: '{' :: '"' :: 'a' :: '"' :: ':' :: '"' :: 'b' :: '"' :: '}' :: ',' :: ['"']

/-- The brace-bounded prefix that `executeTool` re-parses on the bug
input: an unterminated array, not valid JSON. -/
def c1Cut : Str :=
  '[' :: '{' :: '"' :: 'a' :: '"' :: ':' :: '"' :: 'b' :: '"' :: ['}']

/-- The oversized successful payload exhibiting the truncation bug: a
two-element array whose second element is a 50,000-character string. -/
def c1Data : Json :=
  .arr [.obj [(['a'], .str ['b'])], .str (List.replicate 50000 'x')]

theorem c1_stringify :
    Json.stringify c1Data =
      c1Pre ++ (List.replicate 50000 'x' ++ ('"' :: [']'])) := by
  rw [show Json.stringify c1Data =
      '[' :: (('{' :: '"' :: 'a' :: '"' :: ':' :: '"' :: 'b' :: '"' :: ['}']) ++
        ',' :: ('"' :: (List.replicate 50000 'x').flatMap escChar ++ ['"'])) ++ [']']
    from rfl]
  rw [flatMap_escChar_replicate]
  generalize List.replicate 50000 'x' = rep
  simp [c1Pre]

theorem c1_length : (Json.stringify c1Data).length = 50014 := by
  rw [c1_stringify]
  rw [List.length_append, List.length_append, List.length_replicate]
  decide

theorem c1_take :
    (Json.stringify c1Data).take CHARACTER_LIMIT = c1Pre ++ List.replicate 49988 'x' := by
  rw [c1_stringify]
  rw [List.take_append_eq_append_take, List.take_append_eq_append_take]
  rw [List.take_replicate]
  rw [List.take_of_length_le (by decide : c1Pre.length ≤ CHARACTER_LIMIT)]
  rw [show CHARACTER_LIMIT - c1Pre.length = 49988 from rfl]
  rw [show min 49988 50000 = 49988 from rfl]
  rw [List.length_replicate]
  rw [show 49988 - 50000 = 0 from rfl]
  rw [List.take_zero, List.append_nil]

/-- C1: the always-valid-JSON truncation guarantee fails.  On the
oversized successful payload `c1Data` the cut window contains a closing
brace at index 9, the brace-bounded prefix `c1Cut` is an unterminated
array that `JSON.parse` rejects, and the invocation therefore degrades to
a plain `Error:` text (flagged as an error, and not JSON) instead of the
documented `{ _truncated, _message, data }` wrapper. -/
theorem executeTool_truncation_bug :
    CHARACTER_LIMIT < (Json.stringify c1Data).length ∧
    executeTool (.ok (.success c1Data none)) = ⟨errorText jsonSyntaxErrorMessage, true⟩ ∧
    Json.parse (errorText jsonSyntaxErrorMessage) = none := by
  refine ⟨by rw [c1_length]; decide, ?_, rfl⟩
  have htr2 : truncateResult (Json.stringify c1Data) =
      (c1Pre ++ List.replicate 49988 'x', true) := by
    rw [show truncateResult (Json.stringify c1Data) =
        (if (Json.stringify c1Data).length ≤ CHARACTER_LIMIT
          then (Json.stringify c1Data, false)
          else ((Json.stringify c1Data).take CHARACTER_LIMIT, true)) from rfl]
    rw [c1_length, if_neg (by decide), c1_take]
  have hnomem : '}' ∉ List.replicate 49988 'x' := by
    intro hm
    have := List.eq_of_mem_replicate hm
    cases this
  have hidx : jsLastIndexOf '}' (c1Pre ++ List.replicate 49988 'x') = 9 := by
    rw [jsLastIndexOf_append_of_not_mem '}' c1Pre _ hnomem]
    rfl
  have hslice : jsSliceTo (c1Pre ++ List.replicate 49988 'x') (9 + 1) = c1Cut := by
    show (c1Pre ++ List.replicate 49988 'x').take ((9 + 1 : Int).toNat) = c1Cut
    rw [show ((9 + 1 : Int).toNat) = 10 from rfl]
    rw [List.take_append_eq_append_take]
    rw [show c1Pre.take 10 = c1Cut from rfl]
    rw [show (10 : Nat) - c1Pre.length = 0 from rfl]
    rw [List.take_zero, List.append_nil]
  rw [executeTool_success_eq c1Data none, htr2]
  rw [show ((c1Pre ++ List.replicate 49988 'x', true) : Str × Bool).2 = true from rfl]
  rw [show ((c1Pre ++ List.replicate 49988 'x', true) : Str × Bool).1 =
      c1Pre ++ List.replicate 49988 'x' from rfl]
  rw [if_pos rfl]
  rw [hidx, hslice]
  rw [if_neg (by decide : ¬ c1Cut = [])]
  rw [show Json.parse c1Cut = none from rfl]

/-! ## Pagination and the multi-source reconciler (src/index.ts,
`list_datasets`, `list_municipalities`, `list_provinces`,
`inspect_concept`) -/

/-- Model of `parseInt(s, 10)`: skip leading whitespace, optional sign,
then the longest digit prefix; `none` models `NaN`. -/
def parseIntJS (s : Str) : Option Int :=
  match skipWs s with
  | '-' :: r =>
    if r.takeWhile isDigit = [] then none
    else some (-(digitsVal (r.takeWhile isDigit) : Int))
  | '+' :: r =>
    if r.takeWhile isDigit = [] then none
    else some ((digitsVal (r.takeWhile isDigit) : Int))
  | r =>
    if r.takeWhile isDigit = [] then none
    else some ((digitsVal (r.takeWhile isDigit) : Int))

/-- Pagination metadata; `total = none` models the `NaN` produced by
`parseInt` on a non-numeric count value. -/
structure Pagination where
  total : Option Int
  count : Int
  offset : Int
  has_more : Bool
  next_offset : Option Int
deriving Repr, DecidableEq

/-- JS `<` against a possibly-NaN right operand (comparisons against
`NaN` are false). -/
def jsLtNum (a : Int) (t : Option Int) : Bool :=
  match t with
  | some t => a < t
  | none => false

/-- The pagination record built by `list_datasets` (and by the simple
branch of `list_municipalities` and by `browse_vocabulary`): `has_more`
and `next_offset` derive from `offset + count`. -/
def listDatasetsPagination (total : Option Int) (count offset : Int) : Pagination :=
  { total := total, count := count, offset := offset,
    has_more := jsLtNum (offset + count) total,
    next_offset := if jsLtNum (offset + count) total then some (offset + count) else none }

/-- The pagination record built by the `withBelfiore` branch of
`list_municipalities`: `has_more` and `next_offset` derive from
`offset + safeLimit` (the requested page size), not from the returned
deduplicated count. -/
def muniPagination (total : Option Int) (count offset lim : Int) : Pagination :=
  { total := total, count := count, offset := offset,
    has_more := jsLtNum (offset + lim) total,
    next_offset := if jsLtNum (offset + lim) total then some (offset + lim) else none }

/-- `result.results?.bindings ?? []`. -/
def bindingsOf (r : SparqlResponse) : List SparqlBinding :=
  match r.results with
  | some res =>
    (match res.bindings with
     | some bs => bs
     | none => [])
  | none => []

/-- `countResult.results?.bindings?.[0]?.total?.value ?? "0"`. -/
def countValueOf (r : SparqlResponse) : Str :=
  match (bindingsOf r).head? with
  | some b =>
    (match lookupAssoc b ("total".toList) with
     | some v => v.value
     | none => "0".toList)
  | none => "0".toList

/-- JS object property assignment: replace the entry in place when the
key exists, append otherwise. -/
def updateAssoc {α : Type} : List (Str × α) → Str → α → List (Str × α)
  | [], k, v => [(k, v)]
  | p :: ps, k, v => if p.1 = k then (k, v) :: ps else p :: updateAssoc ps k v

/-- JS string truthiness: the empty string is falsy. -/
def truthy (s : Str) : Bool := !s.isEmpty

/-- The Belfiore lookup map (`notation -> belfiore`, last write wins,
falsy values skipped) built from the auxiliary query rows. -/
def belfioreLookupOf (resp : SparqlResponse) : List (Str × Str) :=
  (bindingsOf resp).foldl (fun m b =>
    match lookupAssoc b ("notation".toList), lookupAssoc b ("belfiore".toList) with
    | some n, some bf =>
      if truthy n.value && truthy bf.value then updateAssoc m n.value bf.value else m
    | _, _ => m) []

/-- Extraction of `(notation, name)` pairs from the primary rows,
skipping rows where either is missing or empty
(`if (!notation || !name) continue`). -/
def primaryRows (resp : SparqlResponse) : List (Str × Str) :=
  (bindingsOf resp).filterMap (fun b =>
    match lookupAssoc b ("notation".toList), lookupAssoc b ("name".toList) with
    | some n, some nm =>
      if truthy n.value && truthy nm.value then some (n.value, nm.value) else none
    | _, _ => none)

/-- Shared client-side reconciliation fold of `list_municipalities` and
`list_provinces`: iterate the primary rows in returned order, keep one
record per natural key, and replace the stored record only when the new
primary name is strictly longer. -/
def dedupLongest {ρ : Type} (mk : Str → Str → ρ) (name : ρ → Str) :
    List (Str × Str) → List (Str × ρ) → List (Str × ρ)
  | [], m => m
  | (n, nm) :: rest, m =>
    match lookupAssoc m n with
    | none => dedupLongest mk name rest (updateAssoc m n (mk n nm))
    | some ex =>
      if (name ex).length < nm.length then
        dedupLongest mk name rest (updateAssoc m n (mk n nm))
      else dedupLongest mk name rest m

/-- One reconciled municipality record (`istat` models the source field
named after the SKOS notation). -/
structure Municipality where
  istat : Str
  name : Str
  belfiore : Option Str
deriving Repr, DecidableEq

/-- Record constructor of the `withBelfiore` branch: the Belfiore code is
attached at insertion time when a truthy lookup value exists. -/
def muniMk (bl : List (Str × Str)) (n nm : Str) : Municipality :=
  { istat := n, name := nm,
    belfiore :=
      match lookupAssoc bl n with
      | some b => if truthy b then some b else none
      | none => none }

/-- Code-point comparison modelling `localeCompare` for the code strings
sorted here. -/
def strLeb : Str → Str → Bool
  | [], _ => true
  | _ :: _, [] => false
  | a :: as, b :: bs =>
    if a.toNat < b.toNat then true
    else if b.toNat < a.toNat then false
    else strLeb as bs

/-- Stable insertion into a sorted list (a later element lands after
equal earlier ones), modelling the stable JS `Array.prototype.sort`. -/
def insertSorted {α : Type} (le : α → α → Bool) (x : α) : List α → List α
  | [] => [x]
  | y :: ys => if le y x then y :: insertSorted le x ys else x :: y :: ys

/-- Stable sort by repeated insertion. -/
def sortStable {α : Type} (le : α → α → Bool) (l : List α) : List α :=
  l.foldl (fun acc x => insertSorted le x acc) []

/-- The reconciled municipality list: dedup the primary rows, attach
Belfiore codes, and sort the surviving records by code. -/
def muniList (nr br : SparqlResponse) : List Municipality :=
  sortStable (fun a b => strLeb a.istat b.istat)
    ((dedupLongest (muniMk (belfioreLookupOf br)) Municipality.name (primaryRows nr) []).map
      (fun p => p.2))

/-- Core of the `withBelfiore` branch of `list_municipalities` after the
three concurrent queries resolve. -/
def listMunicipalitiesCore (nr br cr : SparqlResponse) (offset lim : Int) :
    List Municipality × Pagination :=
  (muniList nr br,
   muniPagination (parseIntJS (countValueOf cr)) ((muniList nr br).length : Int) offset lim)

/-- Core of the `list_datasets` handler after the two concurrent queries
resolve. -/
def listDatasetsCore (dataR cntR : SparqlResponse) (offset : Int) :
    CompressedResult × Pagination :=
  (compressSparqlResult dataR,
   listDatasetsPagination (parseIntJS (countValueOf cntR))
     ((bindingsOf dataR).length : Int) offset)

/-- JSON rendering of a pagination record (`JSON.stringify(NaN)` is
`null`). -/
def paginationJson (p : Pagination) : Json :=
  .obj [("total".toList, match p.total with | some t => .num t | none => .null),
        ("count".toList, .num p.count),
        ("offset".toList, .num p.offset),
        ("has_more".toList, .bool p.has_more),
        ("next_offset".toList, match p.next_offset with | some n => .num n | none => .null)]

/-- JSON rendering of one municipality record; the `belfiore` key is
present only when the code exists (object spread in the source). -/
def muniToJson (m : Municipality) : Json :=
  .obj ([("notation".toList, .str m.istat), ("name".toList, .str m.name)] ++
    (match m.belfiore with
     | some b => [("belfiore".toList, Json.str b)]
     | none => []))

/-- JSON rendering of the `withBelfiore` response data: tabular beyond 5
records, with explicit null for a missing Belfiore code. -/
def muniDataJson (ms : List Municipality) (pg : Pagination) : Json :=
  .obj [("municipalities".toList,
          if 5 < ms.length then
            .obj [("headers".toList,
                    .arr [.str ("notation".toList), .str ("name".toList),
                          .str ("belfiore".toList)]),
                  ("rows".toList,
                    .arr (ms.map (fun m => .arr [.str m.istat, .str m.name,
                      match m.belfiore with
                      | some b => Json.str b
                      | none => Json.null])))]
          else .arr (ms.map muniToJson)),
        ("pagination".toList, paginationJson pg)]

/-- The `withBelfiore` branch of `list_municipalities` from the point
where the three concurrently launched queries have settled.  `Promise.all`
rejects the composite when any sub-query rejects; the rejection is the
handler error caught by `executeTool`. -/
def listMunicipalitiesTool (names belf cnt : Except Str SparqlResponse)
    (offset lim : Int) : McpToolResponse :=
  executeTool (match names with
    | .error e => .error e
    | .ok nr =>
      match belf with
      | .error e => .error e
      | .ok br =>
        match cnt with
        | .error e => .error e
        | .ok cr =>
          .ok (.success
            (muniDataJson (listMunicipalitiesCore nr br cr offset lim).1
              (listMunicipalitiesCore nr br cr offset lim).2)
            (some ((muniList nr br).length : Int))))

/-- JSON rendering of a compressed result. -/
def compressedToJson : CompressedResult → Json
  | .empty => .arr []
  | .records rs => .arr (rs.map (fun row => .obj (row.map (fun p => (p.1, Json.str p.2)))))
  | .tabular hs rows =>
    .obj [("headers".toList, .arr (hs.map Json.str)),
          ("rows".toList, .arr (rows.map (fun row => .arr (row.map (fun cell =>
            match cell with
            | some s => Json.str s
            | none => Json.null)))))]

/-- The `inspect_concept` handler from the point where its five
concurrently launched queries have settled: all-or-nothing over the five
outcomes, then per-facet compression. -/
def inspectConceptTool (d h u i o : Except Str SparqlResponse) : McpToolResponse :=
  executeTool (match d with
    | .error e => .error e
    | .ok rd =>
      match h with
      | .error e => .error e
      | .ok rh =>
        match u with
        | .error e => .error e
        | .ok ru =>
          match i with
          | .error e => .error e
          | .ok ri =>
            match o with
            | .error e => .error e
            | .ok ro =>
              .ok (.success
                (.obj [("definition".toList, compressedToJson (compressSparqlResult rd)),
                       ("hierarchy".toList, compressedToJson (compressSparqlResult rh)),
                       ("usage".toList, compressedToJson (compressSparqlResult ru)),
                       ("incoming".toList, compressedToJson (compressSparqlResult ri)),
                       ("outgoing".toList, compressedToJson (compressSparqlResult ro))])
                (some (((bindingsOf rd).length + (bindingsOf rh).length +
                  (bindingsOf ru).length + (bindingsOf ri).length +
                  (bindingsOf ro).length : Nat) : Int))))

/-- A literal binding value. -/
def bv (s : Str) : SparqlBindingValue := ⟨"literal".toList, s, none, none⟩

/-- Primary rows of a duplicated-key example: ISTAT code 060 appears with
two historical names. -/
def muniNamesEx : SparqlResponse :=
  ⟨none, some ⟨some [
    [("notation".toList, bv ("060".toList)), ("name".toList, bv ("Roma".toList))],
    [("notation".toList, bv ("060".toList)), ("name".toList, bv ("Roma Capitale".toList))]]⟩⟩

/-- A count-query response declaring a total of 2. -/
def countEx2 : SparqlResponse := ⟨none, some ⟨some [[("total".toList, bv ("2".toList))]]⟩⟩

/-- A count-query response declaring a total of 0. -/
def countEx0 : SparqlResponse := ⟨none, some ⟨some [[("total".toList, bv ("0".toList))]]⟩⟩

/-- A data-query response with one row. -/
def dataEx1 : SparqlResponse :=
  ⟨none, some ⟨some [[("dataset".toList, bv ("d1".toList))]]⟩⟩

/-- An empty response. -/
def emptyResp : SparqlResponse := ⟨none, none⟩

/-- The pagination invariant exactly as the specification states it:
`total ≥ count`, `has_more == (offset + count < total)`, and
`next_offset == offset + count` when `has_more`, else null. -/
def paginationClaimInv (p : Pagination) : Prop :=
  ∃ t, p.total = some t ∧ p.count ≤ t ∧
    ((p.has_more = true) ↔ p.offset + p.count < t) ∧
    p.next_offset = (if p.offset + p.count < t then some (p.offset + p.count) else none)

/-- C4 counterexample: the claimed invariant fails on the code.  (i) The
`withBelfiore` branch of `list_municipalities` derives `has_more` from
`offset + safeLimit`, not `offset + count`: two rows with the same ISTAT
code deduplicate to `count = 1` against `total = 2` with `limit = 2`, so
the code reports `has_more = false` although `offset + count < total`.
(ii) Nothing enforces `total ≥ count`: a count query answering 0 over a
1-row page gives `total = 0 < count = 1` in `list_datasets`. -/
theorem pagination_invariant_violations :
    ¬ paginationClaimInv (listMunicipalitiesCore muniNamesEx emptyResp countEx2 0 2).2 ∧
    ¬ paginationClaimInv (listDatasetsCore dataEx1 countEx0 0).2 := by
  constructor
  · have hp : (listMunicipalitiesCore muniNamesEx emptyResp countEx2 0 2).2 =
        ⟨some 2, 1, 0, false, none⟩ := rfl
    rw [hp]
    rintro ⟨t, ht, hc, hhm, hno⟩
    dsimp only at ht hc hhm hno
    cases ht
    exact Bool.false_ne_true (hhm.mpr (by omega))
  · have hp : (listDatasetsCore dataEx1 countEx0 0).2 = ⟨some 0, 1, 0, false, none⟩ := rfl
    rw [hp]
    rintro ⟨t, ht, hc, _, _⟩
    dsimp only at ht hc
    cases ht
    omega

/-- C4 amended: `list_datasets`-style pagination satisfies
`has_more == (offset + count < total)` and
`next_offset == offset + count` when `has_more` else null (whenever the
parsed total is a number), while the `withBelfiore` branch of
`list_municipalities` computes both fields from `offset + safeLimit`
instead of the returned count; `total ≥ count` is not enforced by either
(the total comes from an independent count query). -/
theorem pagination_fields_spec :
    (∀ (total : Option Int) (count offset t : Int), total = some t →
      (((listDatasetsPagination total count offset).has_more = true) ↔ offset + count < t) ∧
      (listDatasetsPagination total count offset).next_offset =
        (if offset + count < t then some (offset + count) else none)) ∧
    (∀ (total : Option Int) (count offset lim t : Int), total = some t →
      (((muniPagination total count offset lim).has_more = true) ↔ offset + lim < t) ∧
      (muniPagination total count offset lim).next_offset =
        (if offset + lim < t then some (offset + lim) else none)) := by
  constructor
  · rintro total count offset t rfl
    constructor
    · simp [listDatasetsPagination, jsLtNum]
    · simp [listDatasetsPagination, jsLtNum]
  · rintro total count offset lim t rfl
    constructor
    · simp [muniPagination, jsLtNum]
    · simp [muniPagination, jsLtNum]

/-- Closed instance of `pagination_fields_spec` at the specification
example `total = 120, offset = 0, count = 50`. -/
theorem pagination_fields_spec_witness :
    (((listDatasetsPagination (some 120) 50 0).has_more = true) ↔ (0 : Int) + 50 < 120) ∧
    (listDatasetsPagination (some 120) 50 0).next_offset =
      (if (0 : Int) + 50 < 120 then some ((0 : Int) + 50) else none) :=
  pagination_fields_spec.1 (some 120) 50 0 120 rfl

/-- C9: the fan-out composites are all-or-nothing.  If any of the
concurrently launched sub-queries of the `withBelfiore` branch of
`list_municipalities` or of `inspect_concept` fails, the whole tool
invocation reports an error whose text is exactly the error rendering of
one failed sub-query — no record data from any succeeded sub-query is
exposed. -/
theorem fanout_all_or_nothing :
    (∀ (names belf cnt : Except Str SparqlResponse) (offset lim : Int),
      (∃ m, names = .error m ∨ belf = .error m ∨ cnt = .error m) →
      (listMunicipalitiesTool names belf cnt offset lim).isError = true ∧
      ∃ m, (names = .error m ∨ belf = .error m ∨ cnt = .error m) ∧
        (listMunicipalitiesTool names belf cnt offset lim).text = errorText m) ∧
    (∀ (d h u i o : Except Str SparqlResponse),
      (∃ m, d = .error m ∨ h = .error m ∨ u = .error m ∨ i = .error m ∨ o = .error m) →
      (inspectConceptTool d h u i o).isError = true ∧
      ∃ m, (d = .error m ∨ h = .error m ∨ u = .error m ∨ i = .error m ∨ o = .error m) ∧
        (inspectConceptTool d h u i o).text = errorText m) := by
  constructor
  · rintro names belf cnt offset lim ⟨m, hm⟩
    rcases names with e | nr
    · exact ⟨rfl, e, Or.inl rfl, rfl⟩
    rcases belf with e | br
    · exact ⟨rfl, e, Or.inr (Or.inl rfl), rfl⟩
    rcases cnt with e | cr
    · exact ⟨rfl, e, Or.inr (Or.inr rfl), rfl⟩
    rcases hm with hm | hm | hm <;> exact Except.noConfusion hm
  · rintro d h u i o ⟨m, hm⟩
    rcases d with e | rd
    · exact ⟨rfl, e, Or.inl rfl, rfl⟩
    rcases h with e | rh
    · exact ⟨rfl, e, Or.inr (Or.inl rfl), rfl⟩
    rcases u with e | ru
    · exact ⟨rfl, e, Or.inr (Or.inr (Or.inl rfl)), rfl⟩
    rcases i with e | ri
    · exact ⟨rfl, e, Or.inr (Or.inr (Or.inr (Or.inl rfl))), rfl⟩
    rcases o with e | ro
    · exact ⟨rfl, e, Or.inr (Or.inr (Or.inr (Or.inr rfl))), rfl⟩
    rcases hm with hm | hm | hm | hm | hm <;> exact Except.noConfusion hm

/-! ### The longest-name survivor of the reconciliation fold -/

theorem lookupAssoc_cons {α : Type} (p : Str × α) (ps : List (Str × α)) (k : Str) :
    lookupAssoc (p :: ps) k = if p.1 = k then some p.2 else lookupAssoc ps k := by
  by_cases h : p.1 = k
  · simp [lookupAssoc, List.find?_cons_of_pos, h]
  · simp [lookupAssoc, List.find?_cons_of_neg, h]

theorem lookupAssoc_updateAssoc_self {α : Type} (m : List (Str × α)) (k : Str) (v : α) :
    lookupAssoc (updateAssoc m k v) k = some v := by
  induction m with
  | nil => simp [updateAssoc, lookupAssoc]
  | cons p ps ih =>
    by_cases h : p.1 = k
    · simp [updateAssoc, h, lookupAssoc_cons]
    · simp [updateAssoc, h, lookupAssoc_cons, ih]

theorem lookupAssoc_updateAssoc_ne {α : Type} (m : List (Str × α)) (k k' : Str) (v : α)
    (h : k' ≠ k) : lookupAssoc (updateAssoc m k v) k' = lookupAssoc m k' := by
  induction m with
  | nil =>
    rw [show updateAssoc ([] : List (Str × α)) k v = [(k, v)] from rfl, lookupAssoc_cons]
    rw [if_neg (fun he => h he.symm)]
  | cons p ps ih =>
    by_cases hpk : p.1 = k
    · rw [show updateAssoc (p :: ps) k v = (k, v) :: ps from by rw [updateAssoc, if_pos hpk]]
      rw [lookupAssoc_cons, lookupAssoc_cons]
      rw [if_neg (fun he => h he.symm), if_neg (fun he => h (hpk ▸ he).symm)]
    · rw [show updateAssoc (p :: ps) k v = p :: updateAssoc ps k v from by
        rw [updateAssoc, if_neg hpk]]
      rw [lookupAssoc_cons, lookupAssoc_cons, ih]

theorem mem_keys_updateAssoc {α : Type} (m : List (Str × α)) (k x : Str) (v : α)
    (hx : x ∈ (updateAssoc m k v).map Prod.fst) : x = k ∨ x ∈ m.map Prod.fst := by
  induction m with
  | nil =>
    rw [show updateAssoc ([] : List (Str × α)) k v = [(k, v)] from rfl] at hx
    simp at hx
    exact Or.inl hx
  | cons p ps ih =>
    by_cases hpk : p.1 = k
    · rw [show updateAssoc (p :: ps) k v = (k, v) :: ps from by
        rw [updateAssoc, if_pos hpk]] at hx
      rw [List.map_cons, List.mem_cons] at hx
      rcases hx with hx | hx
      · exact Or.inl hx
      · right
        rw [List.map_cons, List.mem_cons]
        exact Or.inr hx
    · rw [show updateAssoc (p :: ps) k v = p :: updateAssoc ps k v from by
        rw [updateAssoc, if_neg hpk]] at hx
      rw [List.map_cons, List.mem_cons] at hx
      rcases hx with hx | hx
      · right
        rw [List.map_cons, List.mem_cons]
        exact Or.inl hx
      · rcases ih hx with h1 | h1
        · exact Or.inl h1
        · right
          rw [List.map_cons, List.mem_cons]
          exact Or.inr h1

theorem nodup_keys_updateAssoc {α : Type} (m : List (Str × α)) (k : Str) (v : α)
    (h : (m.map Prod.fst).Nodup) : ((updateAssoc m k v).map Prod.fst).Nodup := by
  induction m with
  | nil => simp [updateAssoc]
  | cons p ps ih =>
    rw [List.map_cons, List.nodup_cons] at h
    by_cases hpk : p.1 = k
    · rw [show updateAssoc (p :: ps) k v = (k, v) :: ps from by rw [updateAssoc, if_pos hpk]]
      rw [List.map_cons, List.nodup_cons]
      exact ⟨by rw [← hpk]; exact h.1, h.2⟩
    · rw [show updateAssoc (p :: ps) k v = p :: updateAssoc ps k v from by
        rw [updateAssoc, if_neg hpk]]
      rw [List.map_cons, List.nodup_cons]
      refine ⟨fun hmem => ?_, ih h.2⟩
      rcases mem_keys_updateAssoc ps k p.1 v hmem with h1 | h1
      · exact hpk h1
      · exact h.1 h1

theorem dedupLongest_keys_nodup {ρ : Type} (mk : Str → Str → ρ) (name : ρ → Str) :
    ∀ (rows : List (Str × Str)) (m : List (Str × ρ)),
      (m.map Prod.fst).Nodup → ((dedupLongest mk name rows m).map Prod.fst).Nodup := by
  intro rows
  induction rows with
  | nil => intro m h; simpa [dedupLongest] using h
  | cons row rest ih =>
    intro m h
    obtain ⟨n, nm⟩ := row
    rw [dedupLongest]
    cases hl : lookupAssoc m n with
    | none => exact ih _ (nodup_keys_updateAssoc m n (mk n nm) h)
    | some ex =>
      by_cases hlen : (name ex).length < nm.length
      · simp only [hlen, if_true]
        exact ih _ (nodup_keys_updateAssoc m n (mk n nm) h)
      · simp only [hlen, if_false]
        exact ih _ h

/-- One reconciliation step on the stored name for a key. -/
def stepName (acc : Option Str) (nm : Str) : Option Str :=
  match acc with
  | none => some nm
  | some ex => some (if ex.length < nm.length then nm else ex)

/-- Longer-wins combination, first seen winning ties. -/
def pickLonger (a b : Str) : Str := if a.length < b.length then b else a

/-- The survivor the specification describes: fold the candidates for a
key in row order, retaining the longer string, ties to the earlier. -/
def survivorSpec : List Str → Option Str
  | [] => none
  | c :: cs => some (cs.foldl pickLonger c)

theorem foldl_stepName_some (cands : List Str) :
    ∀ a, cands.foldl stepName (some a) = some (cands.foldl pickLonger a) := by
  induction cands with
  | nil => intro a; rfl
  | cons c cs ih =>
    intro a
    rw [List.foldl_cons, show stepName (some a) c = some (pickLonger a c) from rfl, ih,
      List.foldl_cons]

theorem foldl_stepName_none (cands : List Str) :
    cands.foldl stepName none = survivorSpec cands := by
  cases cands with
  | nil => rfl
  | cons c cs =>
    rw [List.foldl_cons, show stepName none c = some c from rfl, foldl_stepName_some,
      survivorSpec]

theorem dedupLongest_lookup {ρ : Type} (mk : Str → Str → ρ) (name : ρ → Str)
    (hname : ∀ a b, name (mk a b) = b) (k : Str) :
    ∀ (rows : List (Str × Str)) (m : List (Str × ρ)),
      (lookupAssoc (dedupLongest mk name rows m) k).map name =
        ((rows.filter (fun p => p.1 = k)).map Prod.snd).foldl stepName
          ((lookupAssoc m k).map name) := by
  intro rows
  induction rows with
  | nil => intro m; simp [dedupLongest]
  | cons row rest ih =>
    intro m
    obtain ⟨n, nm⟩ := row
    rw [dedupLongest]
    by_cases hnk : n = k
    · subst hnk
      rw [show ((n, nm) :: rest).filter (fun p => p.1 = n) =
          (n, nm) :: rest.filter (fun p => p.1 = n) from by simp [List.filter_cons]]
      rw [List.map_cons, List.foldl_cons]
      cases hl : lookupAssoc m n with
      | none =>
        show (lookupAssoc (dedupLongest mk name rest (updateAssoc m n (mk n nm))) n).map name = _
        rw [ih]
        rw [lookupAssoc_updateAssoc_self]
        rw [show (Option.map name (some (mk n nm))) = some nm from by simp [hname]]
        rfl
      | some ex =>
        show (lookupAssoc (if (name ex).length < nm.length then
            dedupLongest mk name rest (updateAssoc m n (mk n nm))
          else dedupLongest mk name rest m) n).map name = _
        by_cases hlen : (name ex).length < nm.length
        · rw [if_pos hlen]
          rw [ih]
          rw [lookupAssoc_updateAssoc_self]
          rw [show (Option.map name (some (mk n nm))) = some nm from by simp [hname]]
          rw [show stepName ((some ex).map name) nm = some nm from by
            simp [stepName, hlen]]
        · rw [if_neg hlen]
          rw [ih, hl]
          rw [show stepName ((some ex).map name) nm = some (name ex) from by
            simp [stepName, hlen]]
          rfl
    · rw [show ((n, nm) :: rest).filter (fun p => p.1 = k) =
          rest.filter (fun p => p.1 = k) from by simp [List.filter_cons, hnk]]
      cases hl : lookupAssoc m n with
      | none =>
        show (lookupAssoc (dedupLongest mk name rest (updateAssoc m n (mk n nm))) k).map name = _
        rw [ih, lookupAssoc_updateAssoc_ne m n k (mk n nm) (fun he => hnk he.symm)]
      | some ex =>
        show (lookupAssoc (if (name ex).length < nm.length then
            dedupLongest mk name rest (updateAssoc m n (mk n nm))
          else dedupLongest mk name rest m) k).map name = _
        by_cases hlen : (name ex).length < nm.length
        · rw [if_pos hlen, ih,
            lookupAssoc_updateAssoc_ne m n k (mk n nm) (fun he => hnk he.symm)]
        · rw [if_neg hlen, ih]

/-- C7: the reconciliation fold shared by `list_municipalities` and
`list_provinces` keeps exactly one survivor per natural key (the
surviving map has no duplicate keys), and the survivor stored under a key
is the candidate obtained by folding that key's primary values in
returned row order, always retaining the strictly longer string and
breaking ties in favour of the first seen. -/
theorem dedup_longest_survivor {ρ : Type} (mk : Str → Str → ρ) (name : ρ → Str)
    (hname : ∀ a b, name (mk a b) = b) (rows : List (Str × Str)) (k : Str) :
    ((dedupLongest mk name rows []).map Prod.fst).Nodup ∧
    (lookupAssoc (dedupLongest mk name rows []) k).map name =
      survivorSpec ((rows.filter (fun p => p.1 = k)).map Prod.snd) := by
  refine ⟨dedupLongest_keys_nodup mk name rows [] (by simp), ?_⟩
  rw [dedupLongest_lookup mk name hname k rows []]
  rw [show (lookupAssoc ([] : List (Str × ρ)) k).map name = none from rfl]
  exact foldl_stepName_none _

/-- Closed instance of `dedup_longest_survivor` at the specification
example: key 060 seen with Roma and then Roma Capitale keeps Roma
Capitale. -/
theorem dedup_longest_survivor_witness :
    (lookupAssoc (dedupLongest (muniMk []) Municipality.name
        [("060".toList, "Roma".toList), ("060".toList, "Roma Capitale".toList)] [])
      ("060".toList)).map Municipality.name = some ("Roma Capitale".toList) :=
  ((dedup_longest_survivor (muniMk []) Municipality.name (fun _ _ => rfl)
      [("060".toList, "Roma".toList), ("060".toList, "Roma Capitale".toList)]
      ("060".toList)).2).trans (by decide)

/-- Closed instance of `fanout_all_or_nothing`: a failing auxiliary
(Belfiore) query fails the whole `list_municipalities` invocation even
though the primary and count queries succeeded. -/
theorem fanout_all_or_nothing_witness :
    (listMunicipalitiesTool (.ok muniNamesEx) (.error ("HTTP 500".toList)) (.ok countEx2)
      0 2).isError = true ∧
    ∃ m, ((.ok muniNamesEx : Except Str SparqlResponse) = .error m ∨
        (.error ("HTTP 500".toList) : Except Str SparqlResponse) = .error m ∨
        (.ok countEx2 : Except Str SparqlResponse) = .error m) ∧
      (listMunicipalitiesTool (.ok muniNamesEx) (.error ("HTTP 500".toList)) (.ok countEx2)
        0 2).text = errorText m :=
  fanout_all_or_nothing.1 (.ok muniNamesEx) (.error ("HTTP 500".toList)) (.ok countEx2)
    0 2 ⟨"HTTP 500".toList, Or.inr (Or.inl rfl)⟩

end SchemaGov
